import Mathlib

/-!
# Verification of `semantic_release/cli.py`

A shallow embedding of the release decision-and-orchestration logic of
`semantic_release/cli.py`, together with theorems settling the frozen claims
about it.

Strings from the Python side are modelled as `List Char`; the collaborator
functions imported by `cli.py` (`get_current_version`, `check_build_status`,
`post_changelog`, ... ) live in a `World` record of pure behaviours, and the
side effects the orchestrator performs are recorded in a trace of `Action`s.
Fallible collaborators return `Except PyErr`; an uncaught Python exception is
modelled by the `Except.error` component of a function's result.
-/

namespace SemanticRelease

/-! ### Python `str.replace` on lists of characters

`output.replace(secret, placeholder)` scans left to right, replacing each
leftmost non-overlapping occurrence of `secret`.  The scan is implemented with
a fuel argument (`fuel := length of the text`) so that it is structural and
kernel-reducible; each scanning step consumes at least one character, so the
fuel never runs out on the call from `pyReplace`.
-/

/-- One left-to-right scan of Python `str.replace`: if `pat` is a prefix of the
remaining text, emit `rep` and continue after the matched occurrence, else copy
one character.  `pat ≠ []` on the branch that drops `pat.length` characters. -/
def pyReplaceGo (pat rep : List Char) : Nat → List Char → List Char
  | 0, s => s
  | fuel+1, s =>
    if pat ≠ [] ∧ pat.isPrefixOf s then
      rep ++ pyReplaceGo pat rep fuel (s.drop pat.length)
    else
      match s with
      | [] => []
      | c :: s2 => c :: pyReplaceGo pat rep fuel s2

/-- Python `s.replace(pat, rep)`.  For an empty pattern Python inserts `rep`
between every character (never reached from `filter_output_for_secrets`, which
guards `secret != ""`); otherwise it is the left-to-right scan. -/
def pyReplace (s pat rep : List Char) : List Char :=
  if pat = [] then rep ++ List.foldr (fun c acc => c :: (rep ++ acc)) [] s
  else pyReplaceGo pat rep s.length s

/-- Decidable substring test: `containsSub v s = true` iff `v` occurs as a
contiguous substring of `s`. -/
def containsSub (v : List Char) : List Char → Bool
  | [] => v.isPrefixOf []
  | c :: s2 => v.isPrefixOf (c :: s2) || containsSub v s2

/-- Join a list of chunks with a separator between consecutive chunks. -/
def joinSep (sep : List Char) : List (List Char) → List Char
  | [] => []
  | [c] => c
  | c :: cs => c ++ (sep ++ joinSep sep cs)

/-! ### The secret redactor (`cli.py` lines 44-49 and 273-281) -/

/-- `SECRET_NAMES` from `cli.py`. -/
def SECRET_NAMES : List String :=
  ["PYPI_USERNAME", "PYPI_PASSWORD", "GH_TOKEN", "GL_TOKEN"]

/-- One iteration of the loop in `filter_output_for_secrets`: look the name up
in the environment and, when the value is present and non-empty, replace it by
`"${}".format(secret_name)`, i.e. the character `$` followed by the name. -/
def secretStep (env : String → Option (List Char)) (output : List Char)
    (secret_name : String) : List Char :=
  match env secret_name with
  | none => output
  | some secret =>
    if secret = [] then output
    else pyReplace output secret ('$' :: secret_name.data)

/-- `filter_output_for_secrets(message)` from `cli.py`, with `os.environ`
abstracted as `env`. -/
def filter_output_for_secrets (env : String → Option (List Char))
    (message : List Char) : List Char :=
  List.foldl (secretStep env) message SECRET_NAMES

/-- String-typed wrapper used by the command handlers. -/
def filterString (env : String → Option (List Char)) (s : String) : String :=
  String.mk (filter_output_for_secrets env s.data)

/-! ### Data model: errors, requests, actions, collaborator world -/

/-- Decidable equality of `Except` results, used to evaluate the model at
concrete inputs. -/
instance {ε α : Type} [DecidableEq ε] [DecidableEq α] : DecidableEq (Except ε α)
  | .ok x, .ok y =>
    if h : x = y then .isTrue (h ▸ rfl)
    else .isFalse (fun hc => h (Except.ok.inj hc))
  | .error x, .error y =>
    if h : x = y then .isTrue (h ▸ rfl)
    else .isFalse (fun hc => h (Except.error.inj hc))
  | .ok _, .error _ => .isFalse (fun hc => Except.noConfusion hc)
  | .error _, .ok _ => .isFalse (fun hc => Except.noConfusion hc)

/-- Python exceptions relevant to `cli.py`: `GitError` (the only class the
orchestrator catches anywhere), CI verification failures, and any other
exception class. -/
inductive PyErr
  | gitError (msg : String)
  | ciError (msg : String)
  | otherError (msg : String)
deriving DecidableEq, Repr

/-- Message text of an exception, as `str(error)` produces it. -/
def PyErr.msg : PyErr → String
  | .gitError m => m
  | .ciError m => m
  | .otherError m => m

/-- The flags a `version`/`publish` invocation receives (`kwargs`). -/
structure Request where
  force_level : Option String
  retry : Bool
  noop : Bool
  post : Bool
deriving DecidableEq, Repr

/-- Observable side effects of one run: log lines and calls to the mutating or
uploading collaborators, in program order. -/
inductive Action
  | logInfo (msg : String)
  | logWarning (msg : String)
  | logError (msg : String)
  | logDebug (msg : String)
  | evalBump (current : String) (force : Option String)
  | setNewVersion (v : String)
  | commitNewVersion (v : String)
  | tagNewVersion (v : String)
  | checkout (branch : String)
  | ciCheck (branch : String)
  | pushNewVersion (owner name branch domain : String)
  | removeDists (path : String)
  | buildDists
  | uploadPypi (path : String) (skipExisting : Bool)
  | genChangelog (fromVersion toVersion : String)
  | postChangelog (owner name version markdown : String)
  | uploadRelease (owner name version path : String)
deriving DecidableEq, Repr

/-- Repository / configuration / remote mutations: version write, commit, tag,
checkout, push, dist removal, build, and uploads. -/
def Action.isWrite : Action → Bool
  | .setNewVersion _ => true
  | .commitNewVersion _ => true
  | .tagNewVersion _ => true
  | .checkout _ => true
  | .pushNewVersion _ _ _ _ => true
  | .removeDists _ => true
  | .buildDists => true
  | .uploadPypi _ _ => true
  | .postChangelog _ _ _ _ => true
  | .uploadRelease _ _ _ _ => true
  | _ => false

/-- Actions that the `version()` function can emit. -/
def Action.fromVersion : Action → Bool
  | .logInfo _ => true
  | .logWarning _ => true
  | .logError _ => true
  | .evalBump _ _ => true
  | .setNewVersion _ => true
  | .commitNewVersion _ => true
  | .tagNewVersion _ => true
  | _ => false

/-- Warning-level log entries. -/
def Action.isWarning : Action → Bool
  | .logWarning _ => true
  | _ => false

/-- Hosting-service effects: changelog posting and release-asset upload. -/
def Action.isReleaseOrPost : Action → Bool
  | .postChangelog _ _ _ _ => true
  | .uploadRelease _ _ _ _ => true
  | _ => false

/-- Log entries and the pure bump-evaluation call: the only effects that a
no-op or read-only path may produce. -/
def Action.isLogOrEval : Action → Bool
  | .logInfo _ => true
  | .logWarning _ => true
  | .logError _ => true
  | .logDebug _ => true
  | .evalBump _ _ => true
  | _ => false

/-- The external collaborators of `cli.py` (contracts of §6 of the design),
as pure behaviours: results of lookups, of fallible calls, and the
configuration values read by the orchestrator. -/
structure World where
  get_current_version : Except PyErr String
  evaluate_version_bump : String → Option String → String
  get_new_version : String → String → String
  get_previous_version : String → String
  get_repository_owner_and_name : String × String
  get_current_head_hash : Except PyErr String
  check_build_status : String → String → String → Bool
  check_token : Bool
  get_domain : String
  ci_check : String → Except PyErr Unit
  generate_changelog : String → String → Except PyErr String
  markdown_changelog : String → String → String
  post_changelog : String → String → String → String → Except PyErr Unit
  upload_to_pypi_result : Except PyErr Unit
  upload_to_release_result : Except PyErr Unit
  config_check_build_status : Bool
  config_commit_version_number : Bool
  config_branch : String
  config_dist_path : String
  config_remove_dist : Bool
  config_upload_to_pypi : Bool
  config_upload_to_release : Bool

/-! ### `version()` (`cli.py` lines 88-145) -/

/-- Lines 130-145 of `cli.py`: the retry short-circuit followed by the
mutating tail (`set_new_version`, conditional `commit_new_version`,
`tag_new_version`). -/
def versionBump (w : World) (req : Request) (level_bump new_version : String)
    (t : List Action) : List Action × Except PyErr Bool :=
  if req.retry then (t, .ok true)
  else
    let t := t ++ [.setNewVersion new_version]
    let t := if w.config_commit_version_number
      then t ++ [.commitNewVersion new_version] else t
    let t := t ++ [.tagNewVersion new_version]
    (t ++ [.logInfo ("Bumping with a " ++ level_bump ++ " version to "
      ++ new_version)], .ok true)

/-- `version(**kwargs)` from `cli.py`.  Only `GitError` from
`get_current_version` is caught (lines 101-106); a failing
`get_current_head_hash` (line 125) propagates. -/
def version (w : World) (req : Request) : List Action × Except PyErr Bool :=
  let t0 : List Action :=
    if req.retry then [.logInfo "Retrying publication of the same version"]
    else [.logInfo "Creating new version"]
  match w.get_current_version with
  | .error (.gitError m) => (t0 ++ [.logError m], .ok false)
  | .error e => (t0, .error e)
  | .ok current_version =>
    let t1 := t0 ++ [.logInfo ("Current version: " ++ current_version)]
    let level_bump := w.evaluate_version_bump current_version req.force_level
    let t2 := t1 ++ [.evalBump current_version req.force_level]
    let new_version := w.get_new_version current_version level_bump
    if new_version = current_version ∧ req.retry = false then
      (t2 ++ [.logInfo "No release will be made."], .ok false)
    else if req.noop = true then
      (t2 ++ [.logWarning ("No operation mode. Should have bumped from "
        ++ current_version ++ " to " ++ new_version)], .ok false)
    else if w.config_check_build_status then
      let t3 := t2 ++ [.logInfo "Checking build status..."]
      match w.get_current_head_hash with
      | .error e => (t3, .error e)
      | .ok head =>
        if w.check_build_status w.get_repository_owner_and_name.1
            w.get_repository_owner_and_name.2 head = false then
          (t3 ++ [.logWarning "The build failed, cancelling the release"], .ok false)
        else
          versionBump w req level_bump new_version
            (t3 ++ [.logInfo "The build was a success, continuing the release"])
    else
      versionBump w req level_bump new_version t2

/-! ### `publish()` (`cli.py` lines 186-270) -/

/-- Lines 260-268 of `cli.py`: conditional release-asset upload (enabled and
token present), then conditional dist cleanup and the final log line. -/
def publishRelease (w : World) (new_version owner name : String)
    (t : List Action) : List Action × Except PyErr Unit :=
  if w.config_upload_to_release && w.check_token then
    let t := t ++ [.logInfo "Uploading to HVCS release",
      .uploadRelease owner name new_version w.config_dist_path]
    match w.upload_to_release_result with
    | .error e => (t, .error e)
    | .ok _ =>
      let t := if w.config_remove_dist
        then t ++ [.removeDists w.config_dist_path] else t
      (t ++ [.logInfo "New release published"], .ok ())
  else
    let t := if w.config_remove_dist
      then t ++ [.removeDists w.config_dist_path] else t
    (t ++ [.logInfo "New release published"], .ok ())

/-- Lines 244-258 of `cli.py`: the changelog step.  Only `GitError` from
`generate_changelog`/`post_changelog` is caught, and it is logged with
`logger.error("Posting changelog failed")`; with no token a warning is logged
and the step is skipped. -/
def publishChangelog (w : World) (current_version new_version owner name : String)
    (t : List Action) : List Action × Except PyErr Unit :=
  if w.check_token then
    let t := t ++ [.logInfo "Posting changelog to HVCS",
      .genChangelog current_version new_version]
    match w.generate_changelog current_version new_version with
    | .error (.gitError _) =>
      publishRelease w new_version owner name
        (t ++ [.logError "Posting changelog failed"])
    | .error e => (t, .error e)
    | .ok log =>
      let md := w.markdown_changelog new_version log
      let t := t ++ [.postChangelog owner name new_version md]
      match w.post_changelog owner name new_version md with
      | .error (.gitError _) =>
        publishRelease w new_version owner name
          (t ++ [.logError "Posting changelog failed"])
      | .error e => (t, .error e)
      | .ok _ => publishRelease w new_version owner name t
  else
    publishRelease w new_version owner name
      (t ++ [.logWarning "Missing token: cannot post changelog to HVCS"])

/-- Lines 210-242 of `cli.py`: push, conditional artifact build, conditional
package-index upload (with `skip_existing=retry`), then the changelog step. -/
def publishTail (w : World) (req : Request)
    (current_version new_version owner name branch : String)
    (t : List Action) : List Action × Except PyErr Unit :=
  let t := t ++ [.logInfo "Pushing new version",
    .pushNewVersion owner name branch w.get_domain]
  let t := if w.config_upload_to_pypi || w.config_upload_to_release then
      t ++ [.logInfo "Building distributions"]
        ++ (if w.config_remove_dist then [.removeDists w.config_dist_path] else [])
        ++ [.buildDists]
    else t
  if w.config_upload_to_pypi then
    let t := t ++ [.logInfo "Uploading to PyPI",
      .uploadPypi w.config_dist_path req.retry]
    match w.upload_to_pypi_result with
    | .error e => (t, .error e)
    | .ok _ => publishChangelog w current_version new_version owner name t
  else
    publishChangelog w current_version new_version owner name t

/-- `publish(**kwargs)` from `cli.py`.  `get_current_version()` on line 188 is
not wrapped in a `try`, so its failure propagates; on retry the new version is
the current tag and the current version is one version further back. -/
def publish (w : World) (req : Request) : List Action × Except PyErr Unit :=
  match w.get_current_version with
  | .error e => ([], .error e)
  | .ok cv =>
    let current_version := if req.retry then w.get_previous_version cv else cv
    let new_version := if req.retry then cv
      else w.get_new_version cv (w.evaluate_version_bump cv req.force_level)
    let t0 : List Action := if req.retry then [.logInfo "Retry is on"]
      else [.evalBump cv req.force_level]
    let owner := w.get_repository_owner_and_name.1
    let name := w.get_repository_owner_and_name.2
    let branch := w.config_branch
    let t := t0 ++ [.logDebug ("Running publish on branch " ++ branch),
      .ciCheck branch]
    match w.ci_check branch with
    | .error e => (t, .error e)
    | .ok _ =>
      let t := t ++ [.checkout branch]
      match version w req with
      | (vt, .error e) => (t ++ vt, .error e)
      | (vt, .ok false) => (t ++ vt, .ok ())
      | (vt, .ok true) =>
        publishTail w req current_version new_version owner name branch (t ++ vt)

/-! ### Command handlers (`cli.py` lines 321-352) and `entry()` -/

/-- `cmd_publish`: catches any exception, logs the redacted message and exits
with status 1; otherwise exit status 0. -/
def cmd_publish (w : World) (env : String → Option (List Char))
    (req : Request) : Nat × List Action :=
  match publish w req with
  | (t, .ok _) => (0, t)
  | (t, .error e) => (1, t ++ [.logError (filterString env e.msg)])

/-- `cmd_version`: same wrapper around `version`. -/
def cmd_version (w : World) (env : String → Option (List Char))
    (req : Request) : Nat × List Action :=
  match version w req with
  | (t, .ok _) => (0, t)
  | (t, .error e) => (1, t ++ [.logError (filterString env e.msg)])

/-- Sort key of `entry()`: `1 if x.startswith("--") else -1`. -/
def entryKey (x : String) : Int := if x.startsWith "--" then 1 else -1

/-- `entry()` from `cli.py`: the arguments `sys.argv[1:]` sorted by `entryKey`.
Python's `sorted` is a stable sort, embedded here as insertion sort. -/
def entry (argv : List String) : List String :=
  List.insertionSort (fun x y => entryKey x ≤ entryKey y) (argv.drop 1)

/-! ### Concrete environments and worlds used as test inputs -/

/-- Environment with no secrets set. -/
def envNone : String → Option (List Char) := fun _ => none

/-- Environment where only `GH_TOKEN` is set, to the value `s3cr3t`. -/
def envGH : String → Option (List Char) :=
  fun n => if n = "GH_TOKEN" then some "s3cr3t".data else none

/-- Environment where only `GL_TOKEN` is set, to the value `TOKEN` (a
substring of the inserted placeholder `$GL_TOKEN`). -/
def envGL : String → Option (List Char) :=
  fun n => if n = "GL_TOKEN" then some "TOKEN".data else none

/-- Environment where only `GH_TOKEN` is set, to `hunter2`, whose characters
are disjoint from every placeholder string. -/
def envHunter : String → Option (List Char) :=
  fun n => if n = "GH_TOKEN" then some "hunter2".data else none

/-- A fully healthy collaborator world. -/
def w0 : World where
  get_current_version := .ok "1.2.3"
  evaluate_version_bump := fun _ f => f.getD "patch"
  get_new_version := fun _ _ => "1.2.4"
  get_previous_version := fun _ => "1.2.2"
  get_repository_owner_and_name := ("o", "r")
  get_current_head_hash := .ok "h"
  check_build_status := fun _ _ _ => true
  check_token := true
  get_domain := "github.com"
  ci_check := fun _ => .ok ()
  generate_changelog := fun _ _ => .ok "log"
  markdown_changelog := fun _ l => l
  post_changelog := fun _ _ _ _ => .ok ()
  upload_to_pypi_result := .ok ()
  upload_to_release_result := .ok ()
  config_check_build_status := false
  config_commit_version_number := false
  config_branch := "master"
  config_dist_path := "dist"
  config_remove_dist := true
  config_upload_to_pypi := true
  config_upload_to_release := true

/-- Request with all flags off and no forced level. -/
def req0 : Request := ⟨none, false, false, false⟩

/-- Request with only `noop` set. -/
def reqNoop : Request := ⟨none, false, true, false⟩

/-- Request with only `retry` set. -/
def reqRetry : Request := ⟨none, true, false, false⟩

/-- World whose current-version lookup raises `GitError`. -/
def wGitFail : World :=
  { w0 with get_current_version := .error (.gitError "fatal: no tags") }

/-- World whose changelog posting raises a non-`GitError` exception. -/
def wPostHttp : World :=
  { w0 with post_changelog := fun _ _ _ _ => .error (.otherError "http 500") }

/-- World with no hosting-service token configured. -/
def wNoToken : World := { w0 with check_token := false }

/-- World with build-status checking enabled and a failing CI build. -/
def wBuildFail : World :=
  { w0 with config_check_build_status := true, check_build_status := fun _ _ _ => false }

/-- World whose changelog generation raises `GitError`. -/
def wGenGitFail : World :=
  { w0 with generate_changelog := fun _ _ => .error (.gitError "bad range") }

/-- World whose head-hash lookup raises `GitError`, with the build gate on. -/
def wHeadFail : World :=
  { w0 with config_check_build_status := true,
            get_current_head_hash := .error (.gitError "no head") }

/-- `w0` with a different bump evaluator and version computation, used to
check that retry runs ignore both. -/
def w0alt : World :=
  { w0 with evaluate_version_bump := fun _ _ => "major",
            get_new_version := fun _ _ => "9.9.9" }

/-! ## Lemmas about the string machinery -/

theorem isPrefixOf_exists : ∀ (p s : List Char), p.isPrefixOf s = true ↔ ∃ t, p ++ t = s
  | [], s => by simp [List.isPrefixOf]
  | _ :: _, [] => by simp [List.isPrefixOf]
  | a :: p, b :: s => by
    simp only [List.isPrefixOf, Bool.and_eq_true, beq_iff_eq]
    constructor
    · rintro ⟨rfl, h⟩
      obtain ⟨t, rfl⟩ := (isPrefixOf_exists p s).1 h
      exact ⟨t, rfl⟩
    · rintro ⟨t, ht⟩
      injection ht with h1 h2
      exact ⟨h1, (isPrefixOf_exists p s).2 ⟨t, h2⟩⟩

theorem containsSub_cons (v : List Char) (c : Char) (s : List Char) :
    containsSub v (c :: s) = (v.isPrefixOf (c :: s) || containsSub v s) := rfl

theorem containsSub_iff (v : List Char) :
    ∀ s : List Char, (containsSub v s = true ↔ ∃ u t, u ++ (v ++ t) = s)
  | [] => by
    constructor
    · intro h
      obtain ⟨t, ht⟩ := (isPrefixOf_exists v []).1 (by simpa [containsSub] using h)
      exact ⟨[], t, ht⟩
    · rintro ⟨u, t, h⟩
      rcases List.append_eq_nil.1 h with ⟨rfl, h2⟩
      have : v.isPrefixOf [] = true := (isPrefixOf_exists v []).2 ⟨t, h2⟩
      simpa [containsSub] using this
  | c :: s2 => by
    constructor
    · intro h
      have h' : v.isPrefixOf (c :: s2) = true ∨ containsSub v s2 = true := by
        simpa [containsSub] using h
      rcases h' with hp | hc
      · obtain ⟨t, ht⟩ := (isPrefixOf_exists v _).1 hp
        exact ⟨[], t, ht⟩
      · obtain ⟨u, t, ht⟩ := (containsSub_iff v s2).1 hc
        exact ⟨c :: u, t, by rw [← ht]; rfl⟩
    · rintro ⟨u, t, ht⟩
      match u, ht with
      | [], ht =>
        have hh : v.isPrefixOf (c :: s2) = true := (isPrefixOf_exists v _).2 ⟨t, ht⟩
        rw [containsSub_cons, hh, Bool.true_or]
      | c2 :: u, ht =>
        injection ht with h1 h2
        have hh : containsSub v s2 = true := (containsSub_iff v s2).2 ⟨u, t, h2⟩
        rw [containsSub_cons, hh, Bool.or_true]

theorem containsSub_nil_eq_false {v : List Char} (hv : v ≠ []) :
    containsSub v [] = false := by
  match v, hv with
  | a :: p, _ => rfl

/-- Splitting `v ++ t = x ++ y` at the boundary of `x`. -/
theorem append_split : ∀ (x v t y : List Char), v ++ t = x ++ y →
    (∃ t2, v ++ t2 = x) ∨ (∃ w, v = x ++ w ∧ w ++ t = y)
  | [], v, t, y, h => .inr ⟨v, rfl, h⟩
  | a :: x, v, t, y, h => by
    match v, h with
    | [], _ => exact .inl ⟨a :: x, rfl⟩
    | b :: v, h =>
      rw [List.cons_append, List.cons_append] at h
      injection h with h1 h2
      rcases append_split x v t y h2 with ⟨t2, ht⟩ | ⟨w, hw1, hw2⟩
      · exact .inl ⟨t2, by rw [h1, List.cons_append, ht]⟩
      · exact .inr ⟨w, by rw [h1, hw1, List.cons_append], hw2⟩

/-- An occurrence of `v` inside `x ++ y` is inside `x`, inside `y`, or spans
the boundary with a non-empty part on each side. -/
theorem containsSub_append (v : List Char) :
    ∀ x y : List Char, containsSub v (x ++ y) = true →
      containsSub v x = true ∨ containsSub v y = true ∨
      ∃ v₁ v₂, v = v₁ ++ v₂ ∧ v₁ ≠ [] ∧ v₂ ≠ [] ∧
        (∃ u, u ++ v₁ = x) ∧ v₂.isPrefixOf y = true
  | [], y, h => .inr (.inl h)
  | a :: x, y, h => by
    rw [List.cons_append] at h
    have h' : v.isPrefixOf (a :: (x ++ y)) = true ∨ containsSub v (x ++ y) = true := by
      simpa [containsSub] using h
    rcases h' with hp | hc
    · obtain ⟨t, ht⟩ := (isPrefixOf_exists v _).1 hp
      rw [← List.cons_append] at ht
      rcases append_split (a :: x) v t y ht with ⟨t2, ht2⟩ | ⟨w, hw1, hw2⟩
      · have hh : v.isPrefixOf (a :: x) = true := (isPrefixOf_exists v _).2 ⟨t2, ht2⟩
        exact .inl (by rw [containsSub_cons, hh, Bool.true_or])
      · by_cases hw : w = []
        · subst hw
          rw [List.append_nil] at hw1
          have hh : v.isPrefixOf (a :: x) = true :=
            (isPrefixOf_exists v _).2 ⟨[], by rw [hw1, List.append_nil]⟩
          exact .inl (by rw [containsSub_cons, hh, Bool.true_or])
        · refine .inr (.inr ⟨a :: x, w, hw1, by simp, hw, ⟨[], rfl⟩, ?_⟩)
          exact (isPrefixOf_exists w y).2 ⟨t, hw2⟩
    · rcases containsSub_append v x y hc with h1 | h2 | ⟨v₁, v₂, e, n1, n2, ⟨u, hu⟩, hpre⟩
      · exact .inl (by rw [containsSub_cons, h1, Bool.or_true])
      · exact .inr (.inl h2)
      · exact .inr (.inr ⟨v₁, v₂, e, n1, n2, ⟨a :: u, by rw [← hu, List.cons_append]⟩, hpre⟩)

theorem exists_mem_of_containsSub {v s : List Char} (hv : v ≠ [])
    (h : containsSub v s = true) : ∃ c, c ∈ v ∧ c ∈ s := by
  obtain ⟨u, t, rfl⟩ := (containsSub_iff v s).1 h
  match v, hv with
  | c :: v, _ => exact ⟨c, List.mem_cons_self _ _, by simp⟩

theorem joinSep_cons2 (sep c c2 : List Char) (cs : List (List Char)) :
    joinSep sep (c :: c2 :: cs) = c ++ (sep ++ joinSep sep (c2 :: cs)) := rfl

theorem joinSep_head (sep h : List Char) (tl : List (List Char)) :
    ∃ r, joinSep sep (h :: tl) = h ++ r := by
  cases tl with
  | nil => exact ⟨[], by simp [joinSep]⟩
  | cons c2 cs => exact ⟨sep ++ joinSep sep (c2 :: cs), rfl⟩

theorem pyReplaceGo_succ (pat rep : List Char) (fuel : Nat) (s : List Char) :
    pyReplaceGo pat rep (fuel+1) s =
      if pat ≠ [] ∧ pat.isPrefixOf s then
        rep ++ pyReplaceGo pat rep fuel (s.drop pat.length)
      else
        match s with
        | [] => []
        | c :: s2 => c :: pyReplaceGo pat rep fuel s2 := rfl

/-- The scanning pass decomposes its input into occurrence-free chunks
separated by occurrences of `pat`, and replaces each separator by `rep`. -/
theorem pyReplaceGo_chunks (pat rep : List Char) (hp : pat ≠ []) :
    ∀ (fuel : Nat) (s : List Char), s.length ≤ fuel →
      ∃ chunks : List (List Char), chunks ≠ [] ∧
        joinSep pat chunks = s ∧
        joinSep rep chunks = pyReplaceGo pat rep fuel s ∧
        ∀ c ∈ chunks, containsSub pat c = false := by
  intro fuel
  induction fuel with
  | zero =>
    intro s hs
    have hnil : s = [] := List.length_eq_zero.1 (Nat.le_zero.1 hs)
    subst hnil
    refine ⟨[[]], by simp, rfl, rfl, ?_⟩
    intro c hc
    simp only [List.mem_singleton] at hc
    subst hc
    exact containsSub_nil_eq_false hp
  | succ fuel ih =>
    intro s hs
    by_cases hc : pat ≠ [] ∧ pat.isPrefixOf s
    · obtain ⟨t, ht⟩ := (isPrefixOf_exists pat s).1 hc.2
      have hdrop : s.drop pat.length = t := by rw [← ht]; exact List.drop_left pat t
      have hlen : t.length ≤ fuel := by
        have hlen2 := congrArg List.length ht
        simp only [List.length_append] at hlen2
        have hp1 : 0 < pat.length := List.length_pos.2 hp
        omega
      obtain ⟨chunks, hne, hjp, hjr, hfree⟩ := ih t hlen
      match chunks, hne with
      | ch :: tl, _ =>
        refine ⟨[] :: ch :: tl, by simp, ?_, ?_, ?_⟩
        · rw [joinSep_cons2, List.nil_append, hjp]; exact ht
        · have hgo : pyReplaceGo pat rep (fuel+1) s
              = rep ++ pyReplaceGo pat rep fuel (s.drop pat.length) := by
            rw [pyReplaceGo_succ, if_pos hc]
          rw [joinSep_cons2, List.nil_append, hgo, hdrop, hjr]
        · intro c hcm
          rcases List.mem_cons.mp hcm with rfl | h2
          · exact containsSub_nil_eq_false hp
          · exact hfree c h2
    · match s with
      | [] =>
        refine ⟨[[]], by simp, rfl, ?_, ?_⟩
        · rw [pyReplaceGo_succ, if_neg hc]; rfl
        · intro c hcm
          simp only [List.mem_singleton] at hcm
          subst hcm
          exact containsSub_nil_eq_false hp
      | c :: s2 =>
        have hs2 : s2.length ≤ fuel := by
          simp only [List.length_cons] at hs; omega
        obtain ⟨chunks, hne, hjp, hjr, hfree⟩ := ih s2 hs2
        match chunks, hne with
        | ch :: tl, _ =>
          have hgo : pyReplaceGo pat rep (fuel+1) (c :: s2)
              = c :: pyReplaceGo pat rep fuel s2 := by
            rw [pyReplaceGo_succ, if_neg hc]
          refine ⟨(c :: ch) :: tl, by simp, ?_, ?_, ?_⟩
          · cases tl with
            | nil =>
              simp only [joinSep] at hjp ⊢
              rw [hjp]
            | cons d ds =>
              rw [joinSep_cons2, List.cons_append]
              rw [joinSep_cons2] at hjp
              rw [hjp]
          · cases tl with
            | nil =>
              simp only [joinSep] at hjr ⊢
              rw [hjr, hgo]
            | cons d ds =>
              rw [joinSep_cons2, List.cons_append]
              rw [joinSep_cons2] at hjr
              rw [hjr, hgo]
          · intro cc hcc
            rcases List.mem_cons.mp hcc with rfl | h2
            · rw [containsSub_cons, hfree ch (List.mem_cons_self _ _), Bool.or_false]
              by_contra hpre
              rw [Bool.not_eq_false] at hpre
              obtain ⟨t2, ht2⟩ := (isPrefixOf_exists pat _).1 hpre
              obtain ⟨r, hr⟩ := joinSep_head pat ch tl
              rw [hr] at hjp
              apply hc
              refine ⟨hp, (isPrefixOf_exists pat _).2 ⟨t2 ++ r, ?_⟩⟩
              rw [← List.append_assoc, ht2, List.cons_append, hjp]
            · exact hfree cc (List.mem_cons_of_mem _ h2)

/-- The chunk decomposition of Python `replace` for a non-empty pattern. -/
theorem pyReplace_chunks (s pat rep : List Char) (hp : pat ≠ []) :
    ∃ chunks : List (List Char), chunks ≠ [] ∧
      joinSep pat chunks = s ∧
      joinSep rep chunks = pyReplace s pat rep ∧
      ∀ c ∈ chunks, containsSub pat c = false := by
  have h := pyReplaceGo_chunks pat rep hp s.length s (Nat.le_refl _)
  rw [pyReplace, if_neg hp]
  exact h

/-- If every character of `v` avoids the separator `rep` and no chunk contains
`v`, then the joined string contains no occurrence of `v`. -/
theorem containsSub_joinSep {v rep : List Char} (hv : v ≠ []) (hrep : rep ≠ [])
    (hd : ∀ c ∈ v, c ∉ rep) :
    ∀ chunks : List (List Char), (∀ c ∈ chunks, containsSub v c = false) →
      containsSub v (joinSep rep chunks) = false
  | [], _ => containsSub_nil_eq_false hv
  | [c], hfree => hfree c (List.mem_singleton.2 rfl)
  | c :: c2 :: cs, hfree => by
    rw [joinSep_cons2]
    by_contra hcc
    rw [Bool.not_eq_false] at hcc
    rcases containsSub_append v c (rep ++ joinSep rep (c2 :: cs)) hcc with
      h1 | h2 | ⟨v₁, v₂, e, n1, n2, ⟨u, hu⟩, hpre⟩
    · rw [hfree c (List.mem_cons_self _ _)] at h1
      exact Bool.false_ne_true h1
    · rcases containsSub_append v rep (joinSep rep (c2 :: cs)) h2 with
        h3 | h4 | ⟨v₁, v₂, e, n1, n2, ⟨u, hu⟩, hpre⟩
      · obtain ⟨ch, hchv, hchr⟩ := exists_mem_of_containsSub hv h3
        exact hd ch hchv hchr
      · have hrec := containsSub_joinSep hv hrep hd (c2 :: cs)
          (fun d hd2 => hfree d (List.mem_cons_of_mem _ hd2))
        rw [hrec] at h4
        exact Bool.false_ne_true h4
      · match v₁, n1 with
        | ch :: v₁, _ =>
          have hchr : ch ∈ rep := by
            rw [← hu]; simp
          have hchv : ch ∈ v := by
            rw [e]; simp
          exact hd ch hchv hchr
    · obtain ⟨t, ht⟩ := (isPrefixOf_exists v₂ _).1 hpre
      rcases append_split rep v₂ t (joinSep rep (c2 :: cs)) ht with ⟨t2, ht2⟩ | ⟨w, hw1, _⟩
      · match v₂, n2 with
        | ch :: v₂, _ =>
          have hchr : ch ∈ rep := by
            rw [← ht2]; simp
          have hchv : ch ∈ v := by
            rw [e]; simp
          exact hd ch hchv hchr
      · match rep, hrep with
        | rh :: rep, _ =>
          have hchv : rh ∈ v := by
            rw [e, hw1]; simp
          exact hd rh hchv (List.mem_cons_self _ _)

/-- Each chunk occurs as a contiguous substring of the joined string. -/
theorem chunk_sub_joinSep (sep : List Char) :
    ∀ (chunks : List (List Char)) (c : List Char), c ∈ chunks →
      ∃ u t, u ++ (c ++ t) = joinSep sep chunks
  | [], c, hc => absurd hc (List.not_mem_nil c)
  | [c0], c, hc => by
    rw [List.mem_singleton] at hc
    subst hc
    exact ⟨[], [], by simp [joinSep]⟩
  | c0 :: c1 :: cs, c, hc => by
    rcases List.mem_cons.mp hc with rfl | h2
    · exact ⟨[], sep ++ joinSep sep (c1 :: cs), rfl⟩
    · obtain ⟨u, t, hu⟩ := chunk_sub_joinSep sep (c1 :: cs) c h2
      refine ⟨c0 ++ sep ++ u, t, ?_⟩
      rw [joinSep_cons2, ← hu]
      simp [List.append_assoc]

/-- An occurrence inside a contiguous substring is an occurrence in the whole. -/
theorem containsSub_of_sub {v c s : List Char} (hsub : ∃ u t, u ++ (c ++ t) = s)
    (h : containsSub v c = true) : containsSub v s = true := by
  obtain ⟨u, t, rfl⟩ := hsub
  obtain ⟨a, b, rfl⟩ := (containsSub_iff v c).1 h
  exact (containsSub_iff v _).2 ⟨u ++ a, b ++ t, by simp [List.append_assoc]⟩

/-- Replacing `v` itself by a replacement sharing no character with `v`
removes every occurrence of `v`. -/
theorem containsSub_pyReplace_self {v rep : List Char} (hv : v ≠ []) (hrep : rep ≠ [])
    (hd : ∀ c ∈ v, c ∉ rep) (s : List Char) :
    containsSub v (pyReplace s v rep) = false := by
  obtain ⟨chunks, _, _, hjr, hfree⟩ := pyReplace_chunks s v rep hv
  rw [← hjr]
  exact containsSub_joinSep hv hrep hd chunks hfree

/-- Replacing some other pattern cannot introduce an occurrence of `v` when the
replacement text shares no character with `v`. -/
theorem containsSub_pyReplace_other {v pat rep : List Char} (hv : v ≠ [])
    (hp : pat ≠ []) (hrep : rep ≠ []) (hd : ∀ c ∈ v, c ∉ rep) (s : List Char)
    (hs : containsSub v s = false) :
    containsSub v (pyReplace s pat rep) = false := by
  obtain ⟨chunks, _, hjp, hjr, _⟩ := pyReplace_chunks s pat rep hp
  rw [← hjr]
  apply containsSub_joinSep hv hrep hd
  intro c hcmem
  by_contra hcc
  rw [Bool.not_eq_false] at hcc
  have hsub : ∃ u t, u ++ (c ++ t) = s := by
    rw [← hjp]
    exact chunk_sub_joinSep pat chunks c hcmem
  have : containsSub v s = true := containsSub_of_sub hsub hcc
  rw [hs] at this
  exact Bool.false_ne_true this

theorem secretStep_none {env : String → Option (List Char)} {output : List Char}
    {n : String} (h : env n = none) : secretStep env output n = output := by
  unfold secretStep
  rw [h]

theorem secretStep_some {env : String → Option (List Char)} {output : List Char}
    {n : String} {secret : List Char} (h : env n = some secret) :
    secretStep env output n =
      if secret = [] then output else pyReplace output secret ('$' :: n.data) := by
  unfold secretStep
  rw [h]

/-- Main redaction invariant: folding the secret-replacement step over a list
of names removes every occurrence of a configured secret `v` whose characters
avoid all the inserted placeholders, and introduces none. -/
theorem foldl_secretStep_gone (env : String → Option (List Char))
    {v : List Char} (hv : v ≠ []) :
    ∀ (names : List String) (t : List Char),
      (∀ n ∈ names, ∀ c ∈ v, c ∉ ('$' :: n.data)) →
      (containsSub v t = false ∨ ∃ n ∈ names, env n = some v) →
      containsSub v (List.foldl (secretStep env) t names) = false
  | [], t, _, h => by
    rcases h with h | ⟨n, hn, _⟩
    · exact h
    · exact absurd hn (List.not_mem_nil n)
  | n :: ns, t, hd, h => by
    rw [List.foldl_cons]
    apply foldl_secretStep_gone env hv ns (secretStep env t n)
      (fun m hm => hd m (List.mem_cons_of_mem _ hm))
    rcases h with hfree | ⟨n2, hn2, hsec⟩
    · left
      cases henv : env n with
      | none => rw [secretStep_none henv]; exact hfree
      | some secret =>
        rw [secretStep_some henv]
        by_cases hsz : secret = []
        · rw [if_pos hsz]; exact hfree
        · rw [if_neg hsz]
          exact containsSub_pyReplace_other hv hsz (by simp)
            (hd n (List.mem_cons_self _ _)) t hfree
    · rcases List.mem_cons.mp hn2 with rfl | htail
      · left
        rw [secretStep_some hsec, if_neg hv]
        exact containsSub_pyReplace_self hv (by simp)
          (hd n2 (List.mem_cons_self _ _)) t
      · right
        exact ⟨n2, htail, hsec⟩

/-! ## Claim C1 -/

/-- C1 counterexample: with `GH_TOKEN=s3cr3t` in the environment, redacting the
text `s3cr3t` yields `$GH_TOKEN` — the dollar sign directly followed by the
variable name — not the claimed `${GH_TOKEN}` with braces
(`"${}".format(name)` formats to `"$" + name`). -/
theorem c1_counterexample :
    filter_output_for_secrets envGH "s3cr3t".data = "$GH_TOKEN".data ∧
    filter_output_for_secrets envGH "s3cr3t".data ≠ "${GH_TOKEN}".data := by
  decide

/-- C1 (amended): for every text, each secret that is empty or missing is
skipped without failing (all-missing environments leave the text unchanged),
and a configured non-empty secret value is replaced, at every leftmost
non-overlapping occurrence, by the placeholder `$NAME` — the dollar sign
directly followed by the variable name, with no braces.  The replacement is
witnessed by a decomposition of the text into occurrence-free chunks joined by
the secret, with the output being the same chunks joined by the placeholder. -/
theorem c1_placeholder_dollar_name (env : String → Option (List Char)) (t : List Char) :
    ((∀ n ∈ SECRET_NAMES, env n = none ∨ env n = some []) →
      filter_output_for_secrets env t = t) ∧
    (∀ (n : String) (v : List Char), n ∈ SECRET_NAMES → env n = some v → v ≠ [] →
      (∀ m ∈ SECRET_NAMES, m ≠ n → env m = none) →
      ∃ chunks : List (List Char), chunks ≠ [] ∧
        joinSep v chunks = t ∧
        joinSep ('$' :: n.data) chunks = filter_output_for_secrets env t ∧
        ∀ c ∈ chunks, containsSub v c = false) := by
  constructor
  · intro h
    have step : ∀ (x : List Char) (m : String), m ∈ SECRET_NAMES →
        secretStep env x m = x := by
      intro x m hm
      rcases h m hm with hnone | hempty
      · exact secretStep_none hnone
      · rw [secretStep_some hempty, if_pos rfl]
    show List.foldl (secretStep env) t SECRET_NAMES = t
    rw [SECRET_NAMES]
    simp only [List.foldl_cons, List.foldl_nil]
    rw [step t "PYPI_USERNAME" (by decide)]
    rw [step t "PYPI_PASSWORD" (by decide)]
    rw [step t "GH_TOKEN" (by decide)]
    rw [step t "GL_TOKEN" (by decide)]
  · intro n v hn henv hv hother
    have hfilter : filter_output_for_secrets env t = pyReplace t v ('$' :: n.data) := by
      have hmem : n = "PYPI_USERNAME" ∨ n = "PYPI_PASSWORD" ∨ n = "GH_TOKEN"
          ∨ n = "GL_TOKEN" := by
        simpa [SECRET_NAMES] using hn
      show List.foldl (secretStep env) t SECRET_NAMES = _
      rw [SECRET_NAMES]
      simp only [List.foldl_cons, List.foldl_nil]
      rcases hmem with rfl | rfl | rfl | rfl
      · rw [secretStep_some henv, if_neg hv]
        rw [secretStep_none (hother "PYPI_PASSWORD" (by decide) (by decide))]
        rw [secretStep_none (hother "GH_TOKEN" (by decide) (by decide))]
        rw [secretStep_none (hother "GL_TOKEN" (by decide) (by decide))]
      · rw [secretStep_none (hother "PYPI_USERNAME" (by decide) (by decide))]
        rw [secretStep_some henv, if_neg hv]
        rw [secretStep_none (hother "GH_TOKEN" (by decide) (by decide))]
        rw [secretStep_none (hother "GL_TOKEN" (by decide) (by decide))]
      · rw [secretStep_none (hother "PYPI_USERNAME" (by decide) (by decide))]
        rw [secretStep_none (hother "PYPI_PASSWORD" (by decide) (by decide))]
        rw [secretStep_some henv, if_neg hv]
        rw [secretStep_none (hother "GL_TOKEN" (by decide) (by decide))]
      · rw [secretStep_none (hother "PYPI_USERNAME" (by decide) (by decide))]
        rw [secretStep_none (hother "PYPI_PASSWORD" (by decide) (by decide))]
        rw [secretStep_none (hother "GH_TOKEN" (by decide) (by decide))]
        rw [secretStep_some henv, if_neg hv]
    obtain ⟨chunks, hne, hjp, hjr, hfree⟩ := pyReplace_chunks t v ('$' :: n.data) hv
    refine ⟨chunks, hne, hjp, ?_, hfree⟩
    rw [hfilter]
    exact hjr

/-- Witness for the amended C1, at concrete inputs: the all-missing
environment leaves a text unchanged, and with only `GH_TOKEN=s3cr3t` set the
output of redacting `a s3cr3t b` is the chunk join with placeholder
`$GH_TOKEN`. -/
theorem c1_witness :
    filter_output_for_secrets envNone "abc".data = "abc".data ∧
    ∃ chunks : List (List Char), chunks ≠ [] ∧
      joinSep "s3cr3t".data chunks = "a s3cr3t b".data ∧
      joinSep ('$' :: ("GH_TOKEN" : String).data) chunks
        = filter_output_for_secrets envGH "a s3cr3t b".data ∧
      ∀ c ∈ chunks, containsSub "s3cr3t".data c = false := by
  constructor
  · exact (c1_placeholder_dollar_name envNone "abc".data).1 (by intro n _; left; rfl)
  · exact (c1_placeholder_dollar_name envGH "a s3cr3t b".data).2 "GH_TOKEN"
      "s3cr3t".data (by decide) (by decide) (by decide) (by decide)

/-! ## Claim C2 -/

/-- C2 counterexample: with `GL_TOKEN=TOKEN` — a secret value that is a
substring of its own inserted placeholder `$GL_TOKEN` — the redacted output of
the text `TOKEN` still contains the literal secret value, refuting the claim
that the output contains zero occurrences even when a secret value is a
substring of an inserted placeholder. -/
theorem c2_counterexample :
    envGL "GL_TOKEN" = some "TOKEN".data ∧ "TOKEN".data ≠ [] ∧
    containsSub "TOKEN".data
      (filter_output_for_secrets envGL "TOKEN".data) = true := by
  decide

/-- C2 (amended): for every text and environment, the redacted output contains
zero occurrences of each configured non-empty secret value, provided the
secret value shares no character with any of the inserted placeholder strings
`$NAME` (in particular the dollar sign, underscore, and the upper-case letters
of the four names). -/
theorem c2_redaction_disjoint (env : String → Option (List Char)) (t v : List Char)
    (n : String) (hn : n ∈ SECRET_NAMES) (henv : env n = some v) (hv : v ≠ [])
    (hd : ∀ m ∈ SECRET_NAMES, ∀ c ∈ v, c ∉ ('$' :: m.data)) :
    containsSub v (filter_output_for_secrets env t) = false :=
  foldl_secretStep_gone env hv SECRET_NAMES t hd (Or.inr ⟨n, hn, henv⟩)

/-- Witness for the amended C2 at a concrete input: `GH_TOKEN=hunter2` (all
characters disjoint from the placeholders) is fully scrubbed from a text
containing it. -/
theorem c2_witness :
    containsSub "hunter2".data
      (filter_output_for_secrets envHunter "pw is hunter2 end".data) = false :=
  c2_redaction_disjoint envHunter "pw is hunter2 end".data "hunter2".data
    "GH_TOKEN" (by decide) (by decide) (by decide) (by decide)

/-! ## Claim C9 -/

theorem orderedInsert_skip {r : String → String → Prop} [DecidableRel r] (a : String) :
    ∀ (xs ys : List String), (∀ x ∈ xs, ¬ r a x) →
      List.orderedInsert r a (xs ++ ys) = xs ++ List.orderedInsert r a ys
  | [], _, _ => rfl
  | x :: xs, ys, h => by
    rw [List.cons_append, List.orderedInsert, if_neg (h x (List.mem_cons_self _ _))]
    rw [orderedInsert_skip a xs ys (fun z hz => h z (List.mem_cons_of_mem _ hz))]
    rfl

theorem orderedInsert_min {r : String → String → Prop} [DecidableRel r] (a : String) :
    ∀ ys : List String, (∀ y ∈ ys, r a y) → List.orderedInsert r a ys = a :: ys
  | [], _ => rfl
  | y :: ys, h => by
    rw [List.orderedInsert, if_pos (h y (List.mem_cons_self _ _))]

theorem entryKey_lower (y : String) : -1 ≤ entryKey y := by
  unfold entryKey
  by_cases h : y.startsWith "--" <;> simp [h]

/-- C9: `entry()` passes `main` a stable partition of `sys.argv[1:]`: every
argument beginning with `--` is moved after all the arguments that do not
begin with `--`, and the relative order inside each of the two groups is
preserved (so a short-form option such as `-D key=value` is not moved relative
to the other non-`--` arguments). -/
theorem c9_entry_stable_partition (argv : List String) :
    entry argv = (argv.drop 1).filter (fun x => !(x.startsWith "--"))
      ++ (argv.drop 1).filter (fun x => x.startsWith "--") := by
  unfold entry
  generalize argv.drop 1 = l
  induction l with
  | nil => rfl
  | cons a l ih =>
    simp only [List.insertionSort]
    rw [ih]
    by_cases ha : a.startsWith "--"
    · have hkey : entryKey a = 1 := by simp [entryKey, ha]
      rw [orderedInsert_skip a _ _ ?nondash]
      case nondash =>
        intro x hx
        have hxs : x.startsWith "--" = false := by
          simpa using (List.mem_filter.mp hx).2
        have hkx : entryKey x = -1 := by simp [entryKey, hxs]
        rw [hkey, hkx]
        decide
      rw [orderedInsert_min a _ ?dash]
      case dash =>
        intro y hy
        have hys : y.startsWith "--" = true := (List.mem_filter.mp hy).2
        have hky : entryKey y = 1 := by simp [entryKey, hys]
        rw [hkey, hky]
      simp [List.filter_cons, ha]
    · have hkey : entryKey a = -1 := by simp [entryKey, ha]
      rw [orderedInsert_min a _ (fun y _ => by rw [hkey]; exact entryKey_lower y)]
      simp [List.filter_cons, ha]

/-! ## Claim C10 -/

theorem publishRelease_mem_mono (w : World) (nv o nm : String) (t : List Action)
    (a : Action) (h : a ∈ t) : a ∈ (publishRelease w nv o nm t).1 := by
  unfold publishRelease
  by_cases hc : (w.config_upload_to_release && w.check_token) = true
  · rw [if_pos hc]
    cases hr : w.upload_to_release_result with
    | error e => simp [h]
    | ok u =>
      by_cases hrm : w.config_remove_dist = true
      · simp [hrm, h]
      · simp [hrm, h]
  · rw [if_neg hc]
    by_cases hrm : w.config_remove_dist = true
    · simp [hrm, h]
    · simp [hrm, h]

/-- C10: the `post` flag is never read by `publish` (nor by the `version` call
inside it): two requests differing only in `post` produce identical traces,
results and exit codes; and whenever the hosting token is present the
changelog-generation call is made by the changelog step regardless of any
flag. -/
theorem c10_post_flag_irrelevant (w : World) (env : String → Option (List Char))
    (f : Option String) (r n b b2 : Bool) :
    (version w ⟨f, r, n, b⟩ = version w ⟨f, r, n, b2⟩ ∧
      publish w ⟨f, r, n, b⟩ = publish w ⟨f, r, n, b2⟩ ∧
      cmd_publish w env ⟨f, r, n, b⟩ = cmd_publish w env ⟨f, r, n, b2⟩) ∧
    (w.check_token = true → ∀ cv nv o nm t,
      Action.genChangelog cv nv ∈ (publishChangelog w cv nv o nm t).1) := by
  constructor
  · exact ⟨rfl, rfl, rfl⟩
  · intro htok cv nv o nm t
    unfold publishChangelog
    rw [if_pos htok]
    split
    · exact publishRelease_mem_mono _ _ _ _ _ _ (by simp)
    · simp
    · dsimp only
      split
      · exact publishRelease_mem_mono _ _ _ _ _ _ (by simp)
      · simp
      · exact publishRelease_mem_mono _ _ _ _ _ _ (by simp)

/-! ## Trace-shape lemmas for `version` and `publish` -/

theorem isWrite_eq_false_of_isLogOrEval {a : Action} (h : a.isLogOrEval = true) :
    a.isWrite = false := by
  cases a <;> first
    | rfl
    | exact absurd h (by simp [Action.isLogOrEval])

theorem fromVersion_of_isLogOrEval {a : Action} (h : a.isLogOrEval = true)
    (hd : ∀ m, a ≠ Action.logDebug m) : a.fromVersion = true := by
  cases a <;> first
    | rfl
    | exact (hd _ rfl).elim
    | exact absurd h (by simp [Action.isLogOrEval])

theorem versionBump_trace (w : World) (req : Request) (lb nv : String)
    (t : List Action) :
    ∃ extra, (versionBump w req lb nv t).1 = t ++ extra ∧
      ∀ a ∈ extra, a.fromVersion = true := by
  unfold versionBump
  split
  · exact ⟨[], by simp⟩
  · split
    · refine ⟨[.setNewVersion nv, .commitNewVersion nv, .tagNewVersion nv,
        .logInfo ("Bumping with a " ++ lb ++ " version to " ++ nv)], by simp, ?_⟩
      intro a ha
      simp only [List.mem_cons, List.not_mem_nil, or_false] at ha
      rcases ha with rfl | rfl | rfl | rfl <;> rfl
    · refine ⟨[.setNewVersion nv, .tagNewVersion nv,
        .logInfo ("Bumping with a " ++ lb ++ " version to " ++ nv)], by simp, ?_⟩
      intro a ha
      simp only [List.mem_cons, List.not_mem_nil, or_false] at ha
      rcases ha with rfl | rfl | rfl <;> rfl

theorem version_actions (w : World) (req : Request) :
    ∀ a ∈ (version w req).1, a.fromVersion = true := by
  have ht0 : ∀ a ∈ (if req.retry = true then
      [Action.logInfo "Retrying publication of the same version"]
      else [Action.logInfo "Creating new version"]), a.fromVersion = true := by
    split <;> (intro a ha; simp only [List.mem_singleton] at ha; subst ha; rfl)
  unfold version
  intro a ha
  dsimp only at ha
  split at ha
  · rcases List.mem_append.mp ha with h | h
    · exact ht0 a h
    · simp only [List.mem_singleton] at h; subst h; rfl
  · exact ht0 a ha
  · rename_i cv
    split at ha
    · rcases List.mem_append.mp ha with h | h
      · rcases List.mem_append.mp h with h2 | h2
        · rcases List.mem_append.mp h2 with h3 | h3
          · exact ht0 a h3
          · simp only [List.mem_singleton] at h3; subst h3; rfl
        · simp only [List.mem_singleton] at h2; subst h2; rfl
      · simp only [List.mem_singleton] at h; subst h; rfl
    · split at ha
      · rcases List.mem_append.mp ha with h | h
        · rcases List.mem_append.mp h with h2 | h2
          · rcases List.mem_append.mp h2 with h3 | h3
            · exact ht0 a h3
            · simp only [List.mem_singleton] at h3; subst h3; rfl
          · simp only [List.mem_singleton] at h2; subst h2; rfl
        · simp only [List.mem_singleton] at h; subst h; rfl
      · split at ha
        · split at ha
          · rcases List.mem_append.mp ha with h | h
            · rcases List.mem_append.mp h with h2 | h2
              · rcases List.mem_append.mp h2 with h3 | h3
                · exact ht0 a h3
                · simp only [List.mem_singleton] at h3; subst h3; rfl
              · simp only [List.mem_singleton] at h2; subst h2; rfl
            · simp only [List.mem_singleton] at h; subst h; rfl
          · split at ha
            · rcases List.mem_append.mp ha with h | h
              · rcases List.mem_append.mp h with h2 | h2
                · rcases List.mem_append.mp h2 with h3 | h3
                  · rcases List.mem_append.mp h3 with h4 | h4
                    · exact ht0 a h4
                    · simp only [List.mem_singleton] at h4; subst h4; rfl
                  · simp only [List.mem_singleton] at h3; subst h3; rfl
                · simp only [List.mem_singleton] at h2; subst h2; rfl
              · simp only [List.mem_singleton] at h; subst h; rfl
            · obtain ⟨extra, he, hex⟩ := versionBump_trace w req _ _ _
              rw [he] at ha
              rcases List.mem_append.mp ha with h | h
              · rcases List.mem_append.mp h with h2 | h2
                · rcases List.mem_append.mp h2 with h3 | h3
                  · rcases List.mem_append.mp h3 with h4 | h4
                    · rcases List.mem_append.mp h4 with h5 | h5
                      · exact ht0 a h5
                      · simp only [List.mem_singleton] at h5; subst h5; rfl
                    · simp only [List.mem_singleton] at h4; subst h4; rfl
                  · simp only [List.mem_singleton] at h3; subst h3; rfl
                · simp only [List.mem_singleton] at h2; subst h2; rfl
              · exact hex a h
        · obtain ⟨extra, he, hex⟩ := versionBump_trace w req _ _ _
          rw [he] at ha
          rcases List.mem_append.mp ha with h | h
          · rcases List.mem_append.mp h with h2 | h2
            · rcases List.mem_append.mp h2 with h3 | h3
              · exact ht0 a h3
              · simp only [List.mem_singleton] at h3; subst h3; rfl
            · simp only [List.mem_singleton] at h2; subst h2; rfl
          · exact hex a h

theorem version_noop (w : World) (req : Request) (hn : req.noop = true) :
    (∀ b, (version w req).2 = .ok b → b = false) ∧
    ∀ a ∈ (version w req).1, a.isLogOrEval = true := by
  have ht0 : ∀ a ∈ (if req.retry = true then
      [Action.logInfo "Retrying publication of the same version"]
      else [Action.logInfo "Creating new version"]), a.isLogOrEval = true := by
    split <;> (intro a ha; simp only [List.mem_singleton] at ha; subst ha; rfl)
  constructor
  · intro b hb
    unfold version at hb
    dsimp only at hb
    split at hb
    · injection hb with h; exact h.symm
    · simp at hb
    · split at hb
      · injection hb with h; exact h.symm
      · injection hb with h; exact h.symm
  · intro a ha
    unfold version at ha
    dsimp only at ha
    split at ha
    · rcases List.mem_append.mp ha with h | h
      · exact ht0 a h
      · simp only [List.mem_singleton] at h; subst h; rfl
    · exact ht0 a ha
    · split at ha
      · rcases List.mem_append.mp ha with h | h
        · rcases List.mem_append.mp h with h2 | h2
          · rcases List.mem_append.mp h2 with h3 | h3
            · exact ht0 a h3
            · simp only [List.mem_singleton] at h3; subst h3; rfl
          · simp only [List.mem_singleton] at h2; subst h2; rfl
        · simp only [List.mem_singleton] at h; subst h; rfl
      · rcases List.mem_append.mp ha with h | h
        · rcases List.mem_append.mp h with h2 | h2
          · rcases List.mem_append.mp h2 with h3 | h3
            · exact ht0 a h3
            · simp only [List.mem_singleton] at h3; subst h3; rfl
          · simp only [List.mem_singleton] at h2; subst h2; rfl
        · simp only [List.mem_singleton] at h; subst h; rfl

theorem publishRelease_trace (w : World) (nv o nm : String) (t : List Action) :
    ∀ a ∈ (publishRelease w nv o nm t).1,
      a ∈ t ∨ (∃ m, a = Action.logInfo m) ∨
      a = Action.uploadRelease o nm nv w.config_dist_path ∨
      a = Action.removeDists w.config_dist_path := by
  unfold publishRelease
  intro a ha
  dsimp only at ha
  split at ha
  · split at ha
    · simp only [List.mem_append, List.mem_cons, List.not_mem_nil, or_false] at ha
      aesop
    · split at ha <;>
        (simp only [List.mem_append, List.mem_cons, List.not_mem_nil, or_false] at ha
         aesop)
  · split at ha <;>
      (simp only [List.mem_append, List.mem_cons, List.not_mem_nil, or_false] at ha
       aesop)

theorem publishChangelog_trace (w : World) (cv nv o nm : String) (t : List Action) :
    ∀ a ∈ (publishChangelog w cv nv o nm t).1,
      a ∈ t ∨ (∃ m, a = Action.logInfo m) ∨ (∃ m, a = Action.logWarning m) ∨
      (∃ m, a = Action.logError m) ∨ a = Action.genChangelog cv nv ∨
      (∃ md, a = Action.postChangelog o nm nv md) ∨
      a = Action.uploadRelease o nm nv w.config_dist_path ∨
      a = Action.removeDists w.config_dist_path := by
  unfold publishChangelog
  intro a ha
  dsimp only at ha
  split at ha
  · split at ha
    · have h := publishRelease_trace w nv o nm _ a ha
      simp only [List.mem_append, List.mem_cons, List.not_mem_nil, or_false] at h
      aesop
    · simp only [List.mem_append, List.mem_cons, List.not_mem_nil, or_false] at ha
      aesop
    · split at ha
      · have h := publishRelease_trace w nv o nm _ a ha
        simp only [List.mem_append, List.mem_cons, List.not_mem_nil, or_false] at h
        aesop
      · dsimp only at ha
        simp only [List.mem_append, List.mem_cons, List.not_mem_nil, or_false] at ha
        aesop
      · have h := publishRelease_trace w nv o nm _ a ha
        simp only [List.mem_append, List.mem_cons, List.not_mem_nil, or_false] at h
        aesop
  · have h := publishRelease_trace w nv o nm _ a ha
    simp only [List.mem_append, List.mem_cons, List.not_mem_nil, or_false] at h
    aesop

theorem publishTail_trace (w : World) (req : Request) (cv nv o nm br : String)
    (t : List Action) :
    ∀ a ∈ (publishTail w req cv nv o nm br t).1,
      a ∈ t ∨ (∃ m, a = Action.logInfo m) ∨ (∃ m, a = Action.logWarning m) ∨
      (∃ m, a = Action.logError m) ∨
      a = Action.pushNewVersion o nm br w.get_domain ∨
      a = Action.removeDists w.config_dist_path ∨ a = Action.buildDists ∨
      a = Action.uploadPypi w.config_dist_path req.retry ∨
      a = Action.genChangelog cv nv ∨ (∃ md, a = Action.postChangelog o nm nv md) ∨
      a = Action.uploadRelease o nm nv w.config_dist_path := by
  unfold publishTail
  intro a ha
  dsimp only at ha
  split at ha
  · split at ha
    · split at ha <;>
        [skip; (simp only [List.mem_append, List.mem_cons, List.not_mem_nil,
            or_false] at ha; aesop)]
      split at ha <;>
        (simp only [List.mem_append, List.mem_cons, List.not_mem_nil,
           or_false] at ha
         aesop)
    · have h := publishChangelog_trace w cv nv o nm _ a ha
      rcases h with h | h
      · split at h <;>
          [skip; (simp only [List.mem_append, List.mem_cons, List.not_mem_nil,
              or_false] at h; aesop)]
        split at h <;>
          (simp only [List.mem_append, List.mem_cons, List.not_mem_nil,
             or_false] at h
           aesop)
      · aesop
  · have h := publishChangelog_trace w cv nv o nm _ a ha
    rcases h with h | h
    · split at h <;>
        [skip; (simp only [List.mem_append, List.mem_cons, List.not_mem_nil,
            or_false] at h; aesop)]
      split at h <;>
        (simp only [List.mem_append, List.mem_cons, List.not_mem_nil,
           or_false] at h
         aesop)
    · aesop

/-! ## Claim C4 -/

/-- C4 counterexample: with `noop=true`, `publish()` still checks out the
release branch before the no-op short-circuit — `checkout("master")` appears
in the trace of a noop publish run, contradicting the claim that no checkout
occurs during `publish()` under noop. -/
theorem c4_counterexample :
    Action.checkout "master" ∈ (publish w0 reqNoop).1 ∧
    (publish w0 reqNoop).2 = .ok () := by
  decide

/-- C4 (amended): with `noop=true`, `version()` performs no mutation and every
normally-returning run reports `performed=false`; `publish()` still performs
the CI check and the branch checkout (lines 206-207 run before the noop
short-circuit inside `version`), but no version write, commit, tag, push,
build, upload, or dist removal occurs — every action in a noop `publish` trace
is either a non-write or the branch checkout. -/
theorem c4_noop_no_writes (w : World) (req : Request) (hn : req.noop = true) :
    (∀ b, (version w req).2 = .ok b → b = false) ∧
    (∀ a ∈ (version w req).1, a.isWrite = false) ∧
    (∀ a ∈ (publish w req).1, a.isWrite = false ∨ a = .checkout w.config_branch) := by
  obtain ⟨hres, htr⟩ := version_noop w req hn
  refine ⟨hres, fun a ha => isWrite_eq_false_of_isLogOrEval (htr a ha), ?_⟩
  intro a ha
  unfold publish at ha
  dsimp only at ha
  have ht0 : ∀ (cv : String) (a2 : Action),
      a2 ∈ (if req.retry = true then [Action.logInfo "Retry is on"]
        else [Action.evalBump cv req.force_level]) → a2.isWrite = false := by
    intro cv a2 ha2
    split at ha2 <;> (simp only [List.mem_singleton] at ha2; subst ha2; rfl)
  split at ha
  · exact absurd ha (List.not_mem_nil a)
  · split at ha
    · rcases List.mem_append.mp ha with h | h
      · exact .inl (ht0 _ a h)
      · rcases List.mem_cons.mp h with rfl | h2
        · exact .inl rfl
        · rw [List.mem_singleton] at h2; subst h2; exact .inl rfl
    · split at ha
      · rename_i vt e heq
        rcases List.mem_append.mp ha with h | h
        · rcases List.mem_append.mp h with h2 | h2
          · rcases List.mem_append.mp h2 with h3 | h3
            · exact .inl (ht0 _ a h3)
            · rcases List.mem_cons.mp h3 with rfl | h4
              · exact .inl rfl
              · rw [List.mem_singleton] at h4; subst h4; exact .inl rfl
          · rw [List.mem_singleton] at h2; subst h2; exact .inr rfl
        · have hvt : a ∈ (version w req).1 := by rw [heq]; exact h
          exact .inl (isWrite_eq_false_of_isLogOrEval (htr a hvt))
      · rename_i vt heq
        rcases List.mem_append.mp ha with h | h
        · rcases List.mem_append.mp h with h2 | h2
          · rcases List.mem_append.mp h2 with h3 | h3
            · exact .inl (ht0 _ a h3)
            · rcases List.mem_cons.mp h3 with rfl | h4
              · exact .inl rfl
              · rw [List.mem_singleton] at h4; subst h4; exact .inl rfl
          · rw [List.mem_singleton] at h2; subst h2; exact .inr rfl
        · have hvt : a ∈ (version w req).1 := by rw [heq]; exact h
          exact .inl (isWrite_eq_false_of_isLogOrEval (htr a hvt))
      · rename_i vt heq
        have : (version w req).2 = .ok true := by rw [heq]
        exact absurd (hres true this) (by simp)

/-- Witness for the amended C4 at concrete inputs. -/
theorem c4_witness :
    (∀ b, (version w0 reqNoop).2 = .ok b → b = false) ∧
    (∀ a ∈ (version w0 reqNoop).1, a.isWrite = false) ∧
    (∀ a ∈ (publish w0 reqNoop).1,
      a.isWrite = false ∨ a = .checkout w0.config_branch) :=
  c4_noop_no_writes w0 reqNoop rfl

/-! ## Claim C8 -/

/-- C8: with build-status checking enabled, successful current-version and
head lookups, and every CI build-status query reporting failure or unknown
(modelled as `false`), `version()` reports `performed=false` and its trace
contains no write: no `set_new_version`, `commit_new_version`,
`tag_new_version`, `push_new_version`, nor any other mutation. -/
theorem c8_build_gate (w : World) (req : Request) (cv hh : String)
    (hcv : w.get_current_version = .ok cv)
    (hhh : w.get_current_head_hash = .ok hh)
    (hb : w.config_check_build_status = true)
    (hbs : ∀ o n h, w.check_build_status o n h = false) :
    (∀ b, (version w req).2 = .ok b → b = false) ∧
    ∀ a ∈ (version w req).1, a.isWrite = false := by
  have ht0 : ∀ a ∈ (if req.retry = true then
      [Action.logInfo "Retrying publication of the same version"]
      else [Action.logInfo "Creating new version"]), a.isWrite = false := by
    split <;> (intro a ha; simp only [List.mem_singleton] at ha; subst ha; rfl)
  constructor
  · intro b hb2
    unfold version at hb2
    dsimp only at hb2
    rw [hcv] at hb2
    dsimp only at hb2
    split at hb2
    · injection hb2 with h; exact h.symm
    · split at hb2
      · injection hb2 with h; exact h.symm
      · split at hb2
        · simp at hb2
        · split at hb2
          · injection hb2 with h; exact h.symm
          · rename_i hne
            exact absurd (hbs _ _ _) hne
  · intro a ha
    unfold version at ha
    dsimp only at ha
    rw [hcv] at ha
    dsimp only at ha
    split at ha
    · rcases List.mem_append.mp ha with h | h
      · rcases List.mem_append.mp h with h2 | h2
        · rcases List.mem_append.mp h2 with h3 | h3
          · exact ht0 a h3
          · simp only [List.mem_singleton] at h3; subst h3; rfl
        · simp only [List.mem_singleton] at h2; subst h2; rfl
      · simp only [List.mem_singleton] at h; subst h; rfl
    · split at ha
      · rcases List.mem_append.mp ha with h | h
        · rcases List.mem_append.mp h with h2 | h2
          · rcases List.mem_append.mp h2 with h3 | h3
            · exact ht0 a h3
            · simp only [List.mem_singleton] at h3; subst h3; rfl
          · simp only [List.mem_singleton] at h2; subst h2; rfl
        · simp only [List.mem_singleton] at h; subst h; rfl
      · split at ha
        · rename_i e heq
          rw [hhh] at heq
          simp at heq
        · split at ha
          · rcases List.mem_append.mp ha with h | h
            · rcases List.mem_append.mp h with h2 | h2
              · rcases List.mem_append.mp h2 with h3 | h3
                · rcases List.mem_append.mp h3 with h4 | h4
                  · exact ht0 a h4
                  · simp only [List.mem_singleton] at h4; subst h4; rfl
                · simp only [List.mem_singleton] at h3; subst h3; rfl
              · simp only [List.mem_singleton] at h2; subst h2; rfl
            · simp only [List.mem_singleton] at h; subst h; rfl
          · rename_i hne
            exact absurd (hbs _ _ _) hne

/-- Witness for C8 at a concrete world with a failing build. -/
theorem c8_witness :
    (∀ b, (version wBuildFail req0).2 = .ok b → b = false) ∧
    ∀ a ∈ (version wBuildFail req0).1, a.isWrite = false :=
  c8_build_gate wBuildFail req0 "1.2.3" "h" rfl rfl rfl (fun _ _ _ => rfl)

/-! ## Claim C6 -/

/-- C6 counterexample: a `GitError` from `publish()`'s unprotected
`get_current_version()` call (line 188), and a `GitError` from `version()`'s
unprotected `get_current_head_hash()` call (line 125), both escape to the
command handler, which exits with status 1 — contradicting the claim that
such failures never escalate to a non-zero process exit. -/
theorem c6_counterexample :
    (cmd_publish wGitFail envNone req0).1 = 1 ∧
    (cmd_version wHeadFail envNone req0).1 = 1 := by
  decide

/-- C6 (amended): when `get_current_version` raises `GitError`, `version()`
catches it, logs the message and returns `performed=false`; but `publish()`
propagates the same failure (its lookup on line 188 is outside any `try`), so
`cmd_publish` logs the redacted message and exits 1; and when the build gate's
`get_current_head_hash` raises `GitError`, `version()` itself propagates it,
so `cmd_version` exits 1. -/
theorem c6_giterror_paths (w : World) (env : String → Option (List Char))
    (req : Request) :
    (∀ m, w.get_current_version = .error (.gitError m) →
      version w req = ((if req.retry = true then
          [Action.logInfo "Retrying publication of the same version"]
          else [Action.logInfo "Creating new version"]) ++ [.logError m], .ok false) ∧
      publish w req = ([], .error (.gitError m)) ∧
      cmd_publish w env req = (1, [.logError (filterString env m)]) ∧
      cmd_version w env req = (0, (version w req).1)) ∧
    (∀ cv hm, w.get_current_version = .ok cv →
      w.get_current_head_hash = .error (.gitError hm) →
      w.config_check_build_status = true → req.noop = false →
      ¬(w.get_new_version cv (w.evaluate_version_bump cv req.force_level) = cv
        ∧ req.retry = false) →
      (version w req).2 = .error (.gitError hm) ∧
      (cmd_version w env req).1 = 1) := by
  constructor
  · intro m h
    have hver : version w req = ((if req.retry = true then
        [Action.logInfo "Retrying publication of the same version"]
        else [Action.logInfo "Creating new version"]) ++ [.logError m], .ok false) := by
      unfold version
      rw [h]
    have hpub : publish w req = ([], .error (.gitError m)) := by
      unfold publish
      rw [h]
    refine ⟨hver, hpub, ?_, ?_⟩
    · unfold cmd_publish
      rw [hpub]
      rfl
    · unfold cmd_version
      rw [hver]
  · intro cv hm hcv hhh hgate hnoop hnr
    have hver : (version w req).2 = .error (.gitError hm) := by
      unfold version
      dsimp only
      rw [hcv]
      dsimp only
      rw [if_neg hnr, if_neg (by rw [hnoop]; simp), if_pos hgate, hhh]
    refine ⟨hver, ?_⟩
    unfold cmd_version
    cases hv2 : version w req with
    | mk vt res =>
      rw [hv2] at hver
      dsimp only at hver
      subst hver
      rfl

/-- Witness for the amended C6 at concrete worlds. -/
theorem c6_witness :
    (version wGitFail req0 = ((if req0.retry = true then
        [Action.logInfo "Retrying publication of the same version"]
        else [Action.logInfo "Creating new version"])
        ++ [.logError "fatal: no tags"], .ok false) ∧
      publish wGitFail req0 = ([], .error (.gitError "fatal: no tags")) ∧
      cmd_publish wGitFail envNone req0
        = (1, [.logError (filterString envNone "fatal: no tags")]) ∧
      cmd_version wGitFail envNone req0 = (0, (version wGitFail req0).1)) ∧
    ((version wHeadFail req0).2 = .error (.gitError "no head") ∧
      (cmd_version wHeadFail envNone req0).1 = 1) :=
  ⟨(c6_giterror_paths wGitFail envNone req0).1 "fatal: no tags" rfl,
    (c6_giterror_paths wHeadFail envNone req0).2 "1.2.3" "no head" rfl rfl rfl rfl
      (by decide)⟩

/-! ## Claim C5 -/

theorem publishRelease_result (w : World) (nv o nm : String) (t : List Action)
    (hrel : w.upload_to_release_result = .ok ()) :
    (publishRelease w nv o nm t).2 = .ok () ∧
    (w.config_upload_to_release = true → w.check_token = true →
      Action.uploadRelease o nm nv w.config_dist_path ∈ (publishRelease w nv o nm t).1) ∧
    (w.config_remove_dist = true →
      Action.removeDists w.config_dist_path ∈ (publishRelease w nv o nm t).1) := by
  unfold publishRelease
  by_cases hc : (w.config_upload_to_release && w.check_token) = true
  · rw [if_pos hc, hrel]
    dsimp only
    by_cases hrm : w.config_remove_dist = true
    · rw [if_pos hrm]
      exact ⟨rfl, fun _ _ => by simp, fun _ => by simp⟩
    · rw [if_neg hrm]
      refine ⟨rfl, fun _ _ => by simp, fun h => absurd h hrm⟩
  · rw [if_neg hc]
    have hnotok : ¬(w.config_upload_to_release = true ∧ w.check_token = true) := by
      intro ⟨h1, h2⟩
      exact hc (by rw [h1, h2]; rfl)
    by_cases hrm : w.config_remove_dist = true
    · rw [if_pos hrm]
      exact ⟨rfl, fun h1 h2 => absurd ⟨h1, h2⟩ hnotok, fun _ => by simp⟩
    · rw [if_neg hrm]
      exact ⟨rfl, fun h1 h2 => absurd ⟨h1, h2⟩ hnotok, fun h => absurd h hrm⟩

/-- C5 counterexample: a non-`GitError` exception raised while posting the
changelog (here, an HTTP failure) is not caught by the `except GitError`
handler on line 255 — it escapes `publish()` and makes the command handler
exit 1, contradicting the claim that any failure of changelog
generation/posting is caught locally and the process does not exit non-zero
because of it. -/
theorem c5_counterexample :
    (publish wPostHttp req0).2 = .error (.otherError "http 500") ∧
    (cmd_publish wPostHttp envNone req0).1 = 1 := by
  decide

/-- C5 (amended): only a `GitError` raised by changelog generation or posting
is caught locally, and it is logged with `logger.error` ("Posting changelog
failed"), an error-level line, not a warning; the pipeline then continues —
the changelog step returns normally, release-asset upload (when enabled,
token present) and dist cleanup still appear in its trace — and a `publish`
run that completes normally exits 0. -/
theorem c5_giterror_caught (w : World) (cv nv o nm : String) (t : List Action)
    (htok : w.check_token = true)
    (hrel : w.upload_to_release_result = .ok ())
    (hfail : (∃ m, w.generate_changelog cv nv = .error (.gitError m)) ∨
      (∃ log m, w.generate_changelog cv nv = .ok log ∧
        w.post_changelog o nm nv (w.markdown_changelog nv log)
          = .error (.gitError m))) :
    ((publishChangelog w cv nv o nm t).2 = .ok () ∧
      Action.logError "Posting changelog failed" ∈ (publishChangelog w cv nv o nm t).1 ∧
      (w.config_upload_to_release = true →
        Action.uploadRelease o nm nv w.config_dist_path
          ∈ (publishChangelog w cv nv o nm t).1) ∧
      (w.config_remove_dist = true →
        Action.removeDists w.config_dist_path ∈ (publishChangelog w cv nv o nm t).1)) ∧
    (∀ (w2 : World) (env2 : String → Option (List Char)) (req2 : Request)
      (t2 : List Action), publish w2 req2 = (t2, .ok ()) →
      cmd_publish w2 env2 req2 = (0, t2)) := by
  constructor
  · have hred : ∀ t3 : List Action,
        (publishChangelog w cv nv o nm t).1 = (publishRelease w nv o nm t3).1 →
        Action.logError "Posting changelog failed" ∈ t3 →
        (publishChangelog w cv nv o nm t).2 = (publishRelease w nv o nm t3).2 →
        (publishChangelog w cv nv o nm t).2 = .ok () ∧
        Action.logError "Posting changelog failed" ∈ (publishChangelog w cv nv o nm t).1 ∧
        (w.config_upload_to_release = true →
          Action.uploadRelease o nm nv w.config_dist_path
            ∈ (publishChangelog w cv nv o nm t).1) ∧
        (w.config_remove_dist = true →
          Action.removeDists w.config_dist_path ∈ (publishChangelog w cv nv o nm t).1) := by
      intro t3 h1 hmem h2
      obtain ⟨hres, hup, hrm⟩ := publishRelease_result w nv o nm t3 hrel
      refine ⟨by rw [h2]; exact hres, ?_, ?_, ?_⟩
      · rw [h1]; exact publishRelease_mem_mono w nv o nm t3 _ hmem
      · intro hcfg; rw [h1]; exact hup hcfg htok
      · intro hcfg; rw [h1]; exact hrm hcfg
    rcases hfail with ⟨m, hgen⟩ | ⟨log, m, hgen, hpost⟩
    · have heq : publishChangelog w cv nv o nm t = publishRelease w nv o nm
          ((t ++ [.logInfo "Posting changelog to HVCS", .genChangelog cv nv])
            ++ [.logError "Posting changelog failed"]) := by
        unfold publishChangelog
        rw [if_pos htok, hgen]
      exact hred _ (by rw [heq]) (by simp) (by rw [heq])
    · have heq : publishChangelog w cv nv o nm t = publishRelease w nv o nm
          (((t ++ [.logInfo "Posting changelog to HVCS", .genChangelog cv nv])
            ++ [.postChangelog o nm nv (w.markdown_changelog nv log)])
            ++ [.logError "Posting changelog failed"]) := by
        unfold publishChangelog
        rw [if_pos htok, hgen]
        dsimp only
        rw [hpost]
      exact hred _ (by rw [heq]) (by simp) (by rw [heq])
  · intro w2 env2 req2 t2 hpub
    unfold cmd_publish
    rw [hpub]

/-- Witness for the amended C5 at a concrete world whose changelog generation
raises `GitError`. -/
theorem c5_witness :
    (((publishChangelog wGenGitFail "1.2.3" "1.2.4" "o" "r" []).2 = .ok () ∧
      Action.logError "Posting changelog failed"
        ∈ (publishChangelog wGenGitFail "1.2.3" "1.2.4" "o" "r" []).1 ∧
      (wGenGitFail.config_upload_to_release = true →
        Action.uploadRelease "o" "r" "1.2.4" wGenGitFail.config_dist_path
          ∈ (publishChangelog wGenGitFail "1.2.3" "1.2.4" "o" "r" []).1) ∧
      (wGenGitFail.config_remove_dist = true →
        Action.removeDists wGenGitFail.config_dist_path
          ∈ (publishChangelog wGenGitFail "1.2.3" "1.2.4" "o" "r" []).1)) ∧
    (∀ (w2 : World) (env2 : String → Option (List Char)) (req2 : Request)
      (t2 : List Action), publish w2 req2 = (t2, .ok ()) →
      cmd_publish w2 env2 req2 = (0, t2))) :=
  c5_giterror_caught wGenGitFail "1.2.3" "1.2.4" "o" "r" [] rfl rfl
    (Or.inl ⟨"bad range", rfl⟩)

/-! ## Claim C7 -/

/-- C7 counterexample: with the hosting token absent (and release upload
enabled), `publish` emits exactly one warning — the missing-token warning at
the changelog step — while both the changelog posting and the release-asset
upload are skipped; the release-asset skip produces no warning of its own
(`if upload_release and check_token:` on line 261 is silent), refuting "each
skip is accompanied by a warning". -/
theorem c7_counterexample :
    (publish wNoToken req0).2 = .ok () ∧
    (publish wNoToken req0).1.filter Action.isWarning
      = [.logWarning "Missing token: cannot post changelog to HVCS"] ∧
    Action.uploadPypi "dist" false ∈ (publish wNoToken req0).1 ∧
    (publish wNoToken req0).1.all (fun a => !(Action.isReleaseOrPost a)) = true := by
  decide

/-- C7 (amended): when the hosting token is absent, both changelog posting and
release-asset upload are skipped, accompanied by one warning ("Missing token:
cannot post changelog to HVCS", logged at the changelog step; the
release-asset skip itself logs nothing), and the package-index upload (when
enabled) still proceeds before the token check: the trace puts the
`upload_to_pypi` call strictly before the missing-token warning. -/
theorem c7_missing_token (w : World) (req : Request) (cv : String)
    (vt : List Action)
    (htok : w.check_token = false)
    (hcv : w.get_current_version = .ok cv)
    (hci : w.ci_check w.config_branch = .ok ())
    (hv : version w req = (vt, .ok true))
    (hpy : w.config_upload_to_pypi = true)
    (hpok : w.upload_to_pypi_result = .ok ()) :
    (publish w req).2 = .ok () ∧
    Action.logWarning "Missing token: cannot post changelog to HVCS"
      ∈ (publish w req).1 ∧
    (∃ t1 t2, (publish w req).1
        = t1 ++ Action.uploadPypi w.config_dist_path req.retry :: t2 ∧
      Action.logWarning "Missing token: cannot post changelog to HVCS" ∈ t2) ∧
    (∀ o2 n2 v2 md, Action.postChangelog o2 n2 v2 md ∉ (publish w req).1) ∧
    (∀ o2 n2 v2 p, Action.uploadRelease o2 n2 v2 p ∉ (publish w req).1) := by
  have hpyor : (w.config_upload_to_pypi || w.config_upload_to_release) = true := by
    rw [hpy]; rfl
  have htokne : ¬(w.check_token = true) := by rw [htok]; simp
  have hrelne : ¬((w.config_upload_to_release && w.check_token) = true) := by
    rw [htok, Bool.and_false]; simp
  have hvt := version_actions w req
  rw [hv] at hvt
  dsimp only at hvt
  unfold publish
  rw [hcv]
  dsimp only
  rw [hci]
  dsimp only
  rw [hv]
  dsimp only
  unfold publishTail
  dsimp only
  rw [if_pos hpyor, if_pos hpy, hpok]
  dsimp only
  unfold publishChangelog
  dsimp only
  rw [if_neg htokne]
  unfold publishRelease
  dsimp only
  rw [if_neg hrelne]
  by_cases hrm : w.config_remove_dist = true
  · rw [if_pos hrm, if_pos hrm]
    refine ⟨rfl, by simp, ?_, ?_, ?_⟩
    · refine ⟨((((((if req.retry = true then [Action.logInfo "Retry is on"]
          else [Action.evalBump cv req.force_level]) ++
          [Action.logDebug ("Running publish on branch " ++ w.config_branch),
            Action.ciCheck w.config_branch]) ++ [Action.checkout w.config_branch])
          ++ vt) ++
          [Action.logInfo "Pushing new version",
            Action.pushNewVersion w.get_repository_owner_and_name.1
              w.get_repository_owner_and_name.2 w.config_branch w.get_domain]) ++
          [Action.logInfo "Building distributions"] ++
          [Action.removeDists w.config_dist_path] ++ [Action.buildDists]) ++
          [Action.logInfo "Uploading to PyPI"],
        [Action.logWarning "Missing token: cannot post changelog to HVCS",
          Action.removeDists w.config_dist_path,
          Action.logInfo "New release published"], by simp, by simp⟩
    · intro o2 n2 v2 md hmem
      simp at hmem
      rcases hmem with h | h <;>
        first
          | (split at h <;> simp at h)
          | (simpa [Action.fromVersion] using hvt _ h)
    · intro o2 n2 v2 p hmem
      simp at hmem
      rcases hmem with h | h <;>
        first
          | (split at h <;> simp at h)
          | (simpa [Action.fromVersion] using hvt _ h)
  · rw [if_neg hrm, if_neg hrm]
    refine ⟨rfl, by simp, ?_, ?_, ?_⟩
    · refine ⟨((((((if req.retry = true then [Action.logInfo "Retry is on"]
          else [Action.evalBump cv req.force_level]) ++
          [Action.logDebug ("Running publish on branch " ++ w.config_branch),
            Action.ciCheck w.config_branch]) ++ [Action.checkout w.config_branch])
          ++ vt) ++
          [Action.logInfo "Pushing new version",
            Action.pushNewVersion w.get_repository_owner_and_name.1
              w.get_repository_owner_and_name.2 w.config_branch w.get_domain]) ++
          [Action.logInfo "Building distributions"] ++ [] ++ [Action.buildDists]) ++
          [Action.logInfo "Uploading to PyPI"],
        [Action.logWarning "Missing token: cannot post changelog to HVCS",
          Action.logInfo "New release published"], by simp, by simp⟩
    · intro o2 n2 v2 md hmem
      simp at hmem
      rcases hmem with h | h <;>
        first
          | (split at h <;> simp at h)
          | (simpa [Action.fromVersion] using hvt _ h)
    · intro o2 n2 v2 p hmem
      simp at hmem
      rcases hmem with h | h <;>
        first
          | (split at h <;> simp at h)
          | (simpa [Action.fromVersion] using hvt _ h)

/-- Witness for the amended C7 at a concrete tokenless world. -/
theorem c7_witness :
    (publish wNoToken req0).2 = .ok () ∧
    Action.logWarning "Missing token: cannot post changelog to HVCS"
      ∈ (publish wNoToken req0).1 ∧
    (∃ t1 t2, (publish wNoToken req0).1
        = t1 ++ Action.uploadPypi wNoToken.config_dist_path req0.retry :: t2 ∧
      Action.logWarning "Missing token: cannot post changelog to HVCS" ∈ t2) ∧
    (∀ o2 n2 v2 md, Action.postChangelog o2 n2 v2 md ∉ (publish wNoToken req0).1) ∧
    (∀ o2 n2 v2 p, Action.uploadRelease o2 n2 v2 p ∉ (publish wNoToken req0).1) :=
  c7_missing_token wNoToken req0 "1.2.3"
    [Action.logInfo "Creating new version", Action.logInfo "Current version: 1.2.3",
      Action.evalBump "1.2.3" none, Action.setNewVersion "1.2.4",
      Action.tagNewVersion "1.2.4", Action.logInfo "Bumping with a patch version to 1.2.4"]
    rfl rfl rfl (by decide) rfl rfl

/-! ## Claim C3 -/

theorem version_eval_independent (w : World) (f : String → Option String → String)
    (g : String → String → String) (req : Request)
    (hr : req.retry = true) (hn : req.noop = false) :
    version { w with evaluate_version_bump := f, get_new_version := g } req
      = version w req := by
  unfold version
  dsimp only
  cases hcv : w.get_current_version with
  | error e => cases e <;> rfl
  | ok cv =>
    dsimp only
    have h1 : ¬(g cv (f cv req.force_level) = cv ∧ req.retry = false) := by
      rw [hr]; simp
    have h2 : ¬(w.get_new_version cv (w.evaluate_version_bump cv req.force_level)
        = cv ∧ req.retry = false) := by
      rw [hr]; simp
    have h3 : ¬(req.noop = true) := by rw [hn]; simp
    rw [if_neg h1, if_neg h2, if_neg h3, if_neg h3]
    by_cases hb : w.config_check_build_status = true
    · rw [if_pos hb, if_pos hb]
      cases hhh : w.get_current_head_hash with
      | error e => rfl
      | ok head =>
        dsimp only
        by_cases hbs : w.check_build_status w.get_repository_owner_and_name.1
            w.get_repository_owner_and_name.2 head = false
        · rw [if_pos hbs, if_pos hbs]
        · rw [if_neg hbs, if_neg hbs]
          unfold versionBump
          simp only [if_pos hr]
    · rw [if_neg hb, if_neg hb]
      unfold versionBump
      simp only [if_pos hr]

/-- C3 counterexample: on a retry run, `evaluate_version_bump` is still
invoked — line 108 of `cli.py` runs it unconditionally in `version()`, and
`publish()` calls `version()` — so the bump level is recomputed on the retry
path, contradicting "evaluate_version_bump is not invoked on the retry
path". -/
theorem c3_counterexample :
    Action.evalBump "1.2.3" none ∈ (version w0 reqRetry).1 ∧
    Action.evalBump "1.2.3" none ∈ (publish w0 reqRetry).1 := by
  decide

/-- C3 (amended): on a retry (non-noop) run, `evaluate_version_bump` is still
invoked inside `version()`, but its result (and `get_new_version`'s) cannot
influence the run: `version()` and `publish()` produce identical traces and
results for any two bump evaluators.  The version pair is swapped as claimed:
the changelog is generated from `get_previous_version(current)` to the current
tag, and the changelog post and release upload target the current tag (the
most recent prior tag), never a freshly computed version. -/
theorem c3_retry_versions (w : World) (f : String → Option String → String)
    (g : String → String → String) (req : Request)
    (hr : req.retry = true) (hn : req.noop = false) :
    (version { w with evaluate_version_bump := f, get_new_version := g } req
        = version w req ∧
      publish { w with evaluate_version_bump := f, get_new_version := g } req
        = publish w req) ∧
    ∀ cv, w.get_current_version = .ok cv →
      (∀ o2 n2 v2 md, Action.postChangelog o2 n2 v2 md ∈ (publish w req).1 →
        v2 = cv) ∧
      (∀ x y, Action.genChangelog x y ∈ (publish w req).1 →
        x = w.get_previous_version cv ∧ y = cv) ∧
      (∀ o2 n2 v2 p, Action.uploadRelease o2 n2 v2 p ∈ (publish w req).1 →
        v2 = cv) := by
  constructor
  · refine ⟨version_eval_independent w f g req hr hn, ?_⟩
    have hveq := version_eval_independent w f g req hr hn
    unfold publish
    dsimp only
    rw [hveq]
    cases hcv : w.get_current_version with
    | error e => rfl
    | ok cv =>
      dsimp only
      simp only [if_pos hr]
      cases hci2 : w.ci_check w.config_branch with
      | error e => rfl
      | ok u =>
        dsimp only
        cases hver : version w req with
        | mk vt res =>
          cases res with
          | error e => rfl
          | ok b =>
            cases b
            · rfl
            · unfold publishTail publishChangelog publishRelease
              dsimp only
  · intro cv hcv
    have key : ∀ a ∈ (publish w req).1,
        a.fromVersion = true ∨ (∃ m, a = Action.logDebug m) ∨
        a = Action.ciCheck w.config_branch ∨ a = Action.checkout w.config_branch ∨
        (∃ m, a = Action.logInfo m) ∨ (∃ m, a = Action.logWarning m) ∨
        (∃ m, a = Action.logError m) ∨
        a = Action.pushNewVersion w.get_repository_owner_and_name.1
          w.get_repository_owner_and_name.2 w.config_branch w.get_domain ∨
        a = Action.removeDists w.config_dist_path ∨ a = Action.buildDists ∨
        a = Action.uploadPypi w.config_dist_path req.retry ∨
        a = Action.genChangelog (w.get_previous_version cv) cv ∨
        (∃ md, a = Action.postChangelog w.get_repository_owner_and_name.1
          w.get_repository_owner_and_name.2 cv md) ∨
        a = Action.uploadRelease w.get_repository_owner_and_name.1
          w.get_repository_owner_and_name.2 cv w.config_dist_path := by
      intro a hmem
      unfold publish at hmem
      dsimp only at hmem
      rw [hcv] at hmem
      dsimp only at hmem
      simp only [if_pos hr] at hmem
      split at hmem
      · simp only [List.mem_append, List.mem_cons, List.not_mem_nil, or_false,
          List.mem_singleton] at hmem
        rcases hmem with rfl | rfl | rfl
        · exact .inl rfl
        · exact .inr (.inl ⟨_, rfl⟩)
        · exact .inr (.inr (.inl rfl))
      · split at hmem
        · rename_i vt e heq
          rcases List.mem_append.mp hmem with h | h
          · simp only [List.mem_append, List.mem_cons, List.not_mem_nil, or_false,
              List.mem_singleton] at h
            rcases h with (rfl | rfl | rfl) | rfl
            · exact .inl rfl
            · exact .inr (.inl ⟨_, rfl⟩)
            · exact .inr (.inr (.inl rfl))
            · exact .inr (.inr (.inr (.inl rfl)))
          · have hvt2 : a ∈ (version w req).1 := by rw [heq]; exact h
            exact .inl (version_actions w req a hvt2)
        · rename_i vt heq
          rcases List.mem_append.mp hmem with h | h
          · simp only [List.mem_append, List.mem_cons, List.not_mem_nil, or_false,
              List.mem_singleton] at h
            rcases h with (rfl | rfl | rfl) | rfl
            · exact .inl rfl
            · exact .inr (.inl ⟨_, rfl⟩)
            · exact .inr (.inr (.inl rfl))
            · exact .inr (.inr (.inr (.inl rfl)))
          · have hvt2 : a ∈ (version w req).1 := by rw [heq]; exact h
            exact .inl (version_actions w req a hvt2)
        · rename_i vt heq
          have h := publishTail_trace w req _ _ _ _ _ _ a hmem
          rcases h with h | h
          · rcases List.mem_append.mp h with h2 | h2
            · simp only [List.mem_append, List.mem_cons, List.not_mem_nil, or_false,
                List.mem_singleton] at h2
              rcases h2 with (rfl | rfl | rfl) | rfl
              · exact .inl rfl
              · exact .inr (.inl ⟨_, rfl⟩)
              · exact .inr (.inr (.inl rfl))
              · exact .inr (.inr (.inr (.inl rfl)))
            · have hvt2 : a ∈ (version w req).1 := by rw [heq]; exact h2
              exact .inl (version_actions w req a hvt2)
          · aesop
    refine ⟨?_, ?_, ?_⟩
    · intro o2 n2 v2 md hmem
      rcases key _ hmem with h|h|h|h|h|h|h|h|h|h|h|h|h|h
      · simp [Action.fromVersion] at h
      · obtain ⟨m, h⟩ := h; simp at h
      · simp at h
      · simp at h
      · obtain ⟨m, h⟩ := h; simp at h
      · obtain ⟨m, h⟩ := h; simp at h
      · obtain ⟨m, h⟩ := h; simp at h
      · simp at h
      · simp at h
      · simp at h
      · simp at h
      · simp at h
      · obtain ⟨md2, h⟩ := h
        injection h with ho hn2 hv2 hmd
      · simp at h
    · intro x y hmem
      rcases key _ hmem with h|h|h|h|h|h|h|h|h|h|h|h|h|h
      · simp [Action.fromVersion] at h
      · obtain ⟨m, h⟩ := h; simp at h
      · simp at h
      · simp at h
      · obtain ⟨m, h⟩ := h; simp at h
      · obtain ⟨m, h⟩ := h; simp at h
      · obtain ⟨m, h⟩ := h; simp at h
      · simp at h
      · simp at h
      · simp at h
      · simp at h
      · injection h with hx hy
        exact ⟨hx, hy⟩
      · obtain ⟨md2, h⟩ := h; simp at h
      · simp at h
    · intro o2 n2 v2 p hmem
      rcases key _ hmem with h|h|h|h|h|h|h|h|h|h|h|h|h|h
      · simp [Action.fromVersion] at h
      · obtain ⟨m, h⟩ := h; simp at h
      · simp at h
      · simp at h
      · obtain ⟨m, h⟩ := h; simp at h
      · obtain ⟨m, h⟩ := h; simp at h
      · obtain ⟨m, h⟩ := h; simp at h
      · simp at h
      · simp at h
      · simp at h
      · simp at h
      · simp at h
      · obtain ⟨md2, h⟩ := h; simp at h
      · injection h with ho hn2 hv2 hp

/-- Witness for the amended C3 at a concrete world and bump evaluators. -/
theorem c3_witness :
    (version w0alt reqRetry = version w0 reqRetry ∧
      publish w0alt reqRetry = publish w0 reqRetry) ∧
    ((∀ o2 n2 v2 md, Action.postChangelog o2 n2 v2 md ∈ (publish w0 reqRetry).1 →
        v2 = "1.2.3") ∧
      (∀ x y, Action.genChangelog x y ∈ (publish w0 reqRetry).1 →
        x = w0.get_previous_version "1.2.3" ∧ y = "1.2.3") ∧
      (∀ o2 n2 v2 p, Action.uploadRelease o2 n2 v2 p ∈ (publish w0 reqRetry).1 →
        v2 = "1.2.3")) :=
  ⟨(c3_retry_versions w0 (fun _ _ => "major") (fun _ _ => "9.9.9") reqRetry rfl rfl).1,
    (c3_retry_versions w0 (fun _ _ => "major") (fun _ _ => "9.9.9") reqRetry rfl rfl).2
      "1.2.3" rfl⟩

/-- Witness for C10 at concrete inputs. -/
theorem c10_witness :
    publish w0 ⟨none, false, false, true⟩ = publish w0 ⟨none, false, false, false⟩ ∧
    Action.genChangelog "1.2.3" "1.2.4" ∈ (publishChangelog w0 "1.2.3" "1.2.4" "o" "r" []).1 :=
  ⟨(c10_post_flag_irrelevant w0 envNone none false false true false).1.2.1,
    (c10_post_flag_irrelevant w0 envNone none false false true false).2 rfl
      "1.2.3" "1.2.4" "o" "r" []⟩

end SemanticRelease
